import Mathlib

/-!
Shallow embedding of `src/include/BigInt.hpp` (namespace `hausp`, class `BigInt`).

A value is a sign flag (`signal`, `true` = `NEGATIVE`) plus a deque of 32-bit
limbs (`data`), least-significant limb first.  Limbs are modelled as `Nat`
with every store truncated `% 2^32`, exactly as the `uint32_t` (`Group`)
assignments in the source; double-width intermediates (`DoubleGroup`,
`uint64_t`) are exact in `Nat` because every such intermediate in the source
stays below `2^64`.  Loops over the deque become structural recursions over
lists; the two loops whose C++ termination depends on the data
(`convertBase(uintmax_t)` and the base-conversion sweeps) carry an explicit
fuel argument that provably dominates the number of iterations the C++ loop
can make.
-/

namespace BigIntSpec

/-- `GROUP_MAX` from the source: `0xffffffff`. -/
def GROUP_MAX : Nat := 4294967295

/-- `GROUP_RADIX` from the source: `0x100000000`. -/
def GROUP_RADIX : Nat := 4294967296

/-- `GROUP_BIT_SIZE` from the source: 32. -/
def GROUP_BIT_SIZE : Nat := 32

/-- Bitwise complement `~x` of a 32-bit limb (`uint32_t`), for stored limbs
(which are always `< 2^32`). -/
def compl32 (x : Nat) : Nat := GROUP_MAX - x % GROUP_RADIX

/-- The `BigInt` state: `bool signal = POSITIVE; GroupVector data = {0};`.
`signal = true` means `NEGATIVE`; `data` holds the magnitude limbs,
least-significant first. -/
structure BigInt where
  signal : Bool
  data : List Nat
deriving DecidableEq

/-- `BigInt::shrink` on the reversed limb list: pop leading (most-significant)
zero limbs while more than one limb remains.  On an empty deque the C++
`data.back()` is undefined behaviour; the model leaves the empty list
unchanged. -/
def shrinkRev : List Nat → List Nat
  | [] => []
  | [x] => [x]
  | x :: xs => if x = 0 then shrinkRev xs else x :: xs

/-- `BigInt::shrink`. -/
def shrink (d : List Nat) : List Nat := (shrinkRev d.reverse).reverse

/-- Limb loop of `BigInt::twoComplement`: `complement = ~segment + carry`,
store the low 32 bits, carry the high part.  Returns the rewritten limbs and
the final carry. -/
def twoComplementLoop : List Nat → Nat → List Nat × Nat
  | [], c => ([], c)
  | seg :: rest, c =>
    let complement := compl32 seg + c
    let p := twoComplementLoop rest (complement / GROUP_RADIX)
    ((complement % GROUP_RADIX) :: p.1, p.2)

/-- `BigInt::twoComplement(data, signal)`: negate the limbs, then
`signal = ~signal + carry`; if that yields `1`, append it as a new limb. -/
def twoComplement (d : List Nat) (signal : Nat) : List Nat :=
  let p := twoComplementLoop d 1
  let s := (compl32 signal + p.2) % GROUP_RADIX
  if s = 1 then p.1 ++ [1] else p.1

/-- First loop of `BigInt::carryOn` (`for i in [0, rhs.data.size())`):
combine paired limbs through `op`, store the low 32 bits, carry
`(result >> 32) > 0`.  Returns (rewritten low limbs, untouched high limbs,
carry).  The source pads `data` beforehand, so the second list is never the
longer one at the call site. -/
def carryLoop1 (op : Nat → Nat → Nat → Nat) :
    List Nat → List Nat → Nat → List Nat × List Nat × Nat
  | as, [], c => ([], as, c)
  | [], _ :: _, c => ([], [], c)
  | a :: as, b :: bs, c =>
    let result := op a b c
    let p := carryLoop1 op as bs (if 0 < result / GROUP_RADIX then 1 else 0)
    ((result % GROUP_RADIX) :: p.1, p.2.1, p.2.2)

/-- Second loop of `BigInt::carryOn`
(`while (i < data.size() && carry != 0)`): keep folding `op(data[i], 0, carry)`
into the remaining limbs, but stop as soon as the carry becomes `0`. -/
def carryLoop2 (op : Nat → Nat → Nat → Nat) : List Nat → Nat → List Nat × Nat
  | [], c => ([], c)
  | a :: as, c =>
    if c = 0 then (a :: as, c)
    else
      let result := op a 0 c
      let p := carryLoop2 op as (if 0 < result / GROUP_RADIX then 1 else 0)
      ((result % GROUP_RADIX) :: p.1, p.2)

/-- `BigInt::carryOn(rhs, cmpl, op)`: pad `data` with high zero limbs up to
`rhs.data.size()`, run the two limb loops, and, when `cmpl` is set, read the
sign limb `op(0, 0, carry)` — all-ones means the two's-complement result was
negative (negate it back to a magnitude and set `NEGATIVE`), zero means
non-negative.  Finally `shrink`. -/
def carryOn (x rhs : BigInt) (cmpl : Bool) (op : Nat → Nat → Nat → Nat) : BigInt :=
  let data0 := x.data ++ List.replicate (rhs.data.length - x.data.length) 0
  let q := carryLoop1 op data0 rhs.data (if cmpl then 1 else 0)
  let r := carryLoop2 op q.2.1 q.2.2
  let d := q.1 ++ r.1
  let c := r.2
  if cmpl then
    let su := op 0 0 c
    let carry_out : Bool := decide (0 < su / GROUP_RADIX)
    let value := su % GROUP_RADIX
    let d1 := if carry_out ≠ decide (0 < c) then d ++ [c % GROUP_RADIX] else d
    if value = GROUP_MAX then { signal := true, data := shrink (twoComplement d1 value) }
    else if value = 0 then { signal := false, data := shrink d1 }
    else { signal := x.signal, data := shrink d1 }
  else
    let d1 := if 0 < c then d ++ [c % GROUP_RADIX] else d
    { signal := x.signal, data := shrink d1 }

/-- The same-sign lambda of `operator+=`: `carry + lhs + rhs`. -/
def opAdd (l r c : Nat) : Nat := c + l + r

/-- The lambda of the `signal && !rhs.signal` branch: `carry + ~lhs + rhs`. -/
def opSubL (l r c : Nat) : Nat := c + compl32 l + r

/-- The lambda of the remaining mixed-sign branch (and of same-sign
`operator-=`): `carry + lhs + ~rhs`. -/
def opSubR (l r c : Nat) : Nat := c + l + compl32 r

/-- `BigInt::operator+=`. -/
def addAssign (x rhs : BigInt) : BigInt :=
  if x.signal = rhs.signal then carryOn x rhs false opAdd
  else if x.signal && !rhs.signal then carryOn x rhs true opSubL
  else carryOn x rhs true opSubR

/-- `BigInt::operator-=`. -/
def subAssign (x rhs : BigInt) : BigInt :=
  if x.signal = rhs.signal then carryOn x rhs true opSubR
  else carryOn x rhs false opAdd

/-- `BigInt::operator-() const`: flip the sign flag, copy the limbs. -/
def negBig (x : BigInt) : BigInt := { signal := !x.signal, data := x.data }

/-- Inner loop of `BigInt::longMult`:
`result = product[i+j] + rhs.data[i]*data[j] + carry`, store the low 32 bits
at `i+j`, carry the high part. -/
def mulInner (xd : List Nat) (yi pos : Nat) (product : List Nat) (carry : Nat) :
    List Nat × Nat :=
  match xd with
  | [] => (product, carry)
  | d :: ds =>
    let result := product.getD pos 0 + yi * d + carry
    mulInner ds yi (pos + 1) (product.set pos (result % GROUP_RADIX)) (result / GROUP_RADIX)

/-- Outer loop of `BigInt::longMult`: one inner sweep per limb of `rhs`, then
`product[data.size() + i] += carry` (a `uint32_t` addition, mod `2^32`). -/
def mulOuter (xd : List Nat) : List Nat → Nat → Nat → List Nat → List Nat
  | [], _, _, product => product
  | yi :: ys, i, xlen, product =>
    let p := mulInner xd yi i product 0
    let p2 := p.1.set (xlen + i) ((p.1.getD (xlen + i) 0 + p.2) % GROUP_RADIX)
    mulOuter xd ys (i + 1) xlen p2

/-- `BigInt::longMult` (the body of `operator*=`): schoolbook product into a
zeroed vector of `data.size() + rhs.data.size() + 1` limbs,
`signal = signal != rhs.signal`, then `shrink`. -/
def longMult (x rhs : BigInt) : BigInt :=
  let product := List.replicate (x.data.length + rhs.data.length + 1) 0
  { signal := x.signal != rhs.signal,
    data := shrink (mulOuter x.data rhs.data 0 x.data.length product) }

/-- The sub-limb left-shift mask `~((2 << (GROUP_BIT_SIZE - shift - 1)) - 1)`,
evaluated in 32-bit wrapping arithmetic (for `s = 0` the C++ `2 << 31`
overflows `int`; the model takes the wrapped outcome, giving mask `0`). -/
def lshiftMask (s : Nat) : Nat :=
  let a := (2 <<< (GROUP_BIT_SIZE - s - 1)) % GROUP_RADIX
  let b := (a + GROUP_RADIX - 1) % GROUP_RADIX
  GROUP_MAX - b

/-- Limb loop of `operator<<=`:
`shifted = (digit & mask) >> (32 - s); digit = (digit << s) | carried;`
front-to-back, returning the rewritten limbs and the final carried bits.
(For `s = 0` the C++ shift-by-32 is applied to the value `0`; the `Nat`
shift yields that same `0`.) -/
def shiftLeftLoop (s mask : Nat) : List Nat → Nat → List Nat × Nat
  | [], carried => ([], carried)
  | d :: ds, carried =>
    let shifted := (d &&& mask) >>> (GROUP_BIT_SIZE - s)
    let d1 := ((d <<< s) % GROUP_RADIX) ||| carried
    let p := shiftLeftLoop s mask ds shifted
    (d1 :: p.1, p.2)

/-- `BigInt::operator<<=` for a non-negative shift: insert
`shift / 32` zero limbs at the front, run the sub-limb loop with the wrap
mask, append leftover carried bits, `shrink`. -/
def lshiftN (x : BigInt) (shift : Nat) : BigInt :=
  let group_shift := shift / GROUP_BIT_SIZE
  let s := shift % GROUP_BIT_SIZE
  let p := shiftLeftLoop s (lshiftMask s) (List.replicate group_shift 0 ++ x.data) 0
  let d := if 0 < p.2 then p.1 ++ [p.2] else p.1
  { signal := x.signal, data := shrink d }

/-- Limb loop of `operator>>=`, walking from the most-significant limb down:
`shifted = data[i] & mask; data[i] = (data[i] >> s) | carried;
carried = shifted << (32 - s)`.  Returns the rewritten limbs and the carry
flowing toward still-lower limbs. -/
def rshiftLoop (s mask : Nat) : List Nat → List Nat × Nat
  | [] => ([], 0)
  | d :: ds =>
    let p := rshiftLoop s mask ds
    let d1 := ((d >>> s) ||| p.2) % GROUP_RADIX
    (d1 :: p.1, ((d &&& mask) <<< (GROUP_BIT_SIZE - s)) % GROUP_RADIX)

/-- `BigInt::operator>>=` for a non-negative shift.  If
`group_shift > data.size()`, collapse to the single limb `Group(signal)`.
Otherwise pop `group_shift` limbs from the front, run the sub-limb loop,
`shrink`, and patch `[0]` to `[1]` when the value is negative.  When
`group_shift == data.size()` every limb is popped and the deque is left
empty (the C++ `shrink` then calls `back()` on an empty deque — undefined
behaviour; the model keeps the empty list). -/
def rshiftN (x : BigInt) (shift : Nat) : BigInt :=
  let group_shift := shift / GROUP_BIT_SIZE
  let s := shift % GROUP_BIT_SIZE
  let mask := (1 <<< s) - 1
  if x.data.length < group_shift then
    { signal := x.signal, data := [if x.signal then 1 else 0] }
  else
    let d1 := shrink (rshiftLoop s mask (x.data.drop group_shift)).1
    if x.signal ∧ d1 = [0] then { signal := x.signal, data := [1] }
    else { signal := x.signal, data := d1 }

/-- `BigInt::operator<<=` with its signed (`intmax_t`) shift amount:
a negative amount delegates to the right shift of `std::abs(shift)`. -/
def lshift (x : BigInt) (shift : Int) : BigInt :=
  if shift < 0 then rshiftN x shift.natAbs else lshiftN x shift.toNat

/-- `BigInt::operator>>=` with its signed (`intmax_t`) shift amount:
a negative amount delegates to the left shift of `std::abs(shift)`. -/
def rshift (x : BigInt) (shift : Int) : BigInt :=
  if shift < 0 then lshiftN x shift.natAbs else rshiftN x shift.toNat

/-- The top-down limb scan shared by `operator==`:
`while (i > 0 && lhs.data[i] == rhs.data[i]) --i;
return i == 0 && lhs.data[i] == rhs.data[i];`. -/
def eqFrom (a b : List Nat) : Nat → Bool
  | 0 => a.getD 0 0 == b.getD 0 0
  | i + 1 => if a.getD (i + 1) 0 == b.getD (i + 1) 0 then eqFrom a b i else false

/-- `operator==(const BigInt&, const BigInt&)`: signs must match; equal limb
counts trigger the top-down scan; different limb counts are unequal. -/
def eqBig (x y : BigInt) : Bool :=
  if x.signal != y.signal then false
  else if x.data.length = y.data.length then eqFrom x.data y.data (x.data.length - 1)
  else false

/-- The top-down limb scan of `operator<`: skip equal limbs, then compare the
first differing pair (or the limbs at index 0). -/
def ltFrom (a b : List Nat) : Nat → Bool
  | 0 => decide (a.getD 0 0 < b.getD 0 0)
  | i + 1 =>
    if a.getD (i + 1) 0 == b.getD (i + 1) 0 then ltFrom a b i
    else decide (a.getD (i + 1) 0 < b.getD (i + 1) 0)

/-- `operator<(const BigInt&, const BigInt&)`: different signs return
`lhs.signal`; equal limb counts run the top-down scan; otherwise compare the
limb counts. -/
def ltBig (x y : BigInt) : Bool :=
  if x.signal != y.signal then x.signal
  else if x.data.length = y.data.length then ltFrom x.data y.data (x.data.length - 1)
  else decide (x.data.length < y.data.length)

/-- Loop of `BigInt::convertBase(uintmax_t)`: emit `value & GROUP_MAX`, shift
right by 32, while `value > 0`.  The fuel `v + 1` dominates the iteration
count because the value strictly shrinks (`v / 2^32 < v` for `v > 0`). -/
def convertBaseLoop : Nat → Nat → List Nat
  | 0, _ => []
  | fuel + 1, v =>
    if v = 0 then [] else v % GROUP_RADIX :: convertBaseLoop fuel (v / GROUP_RADIX)

/-- `BigInt::convertBase(uintmax_t)`: `[0]` for zero, else the limb loop. -/
def convertBase (v : Nat) : List Nat :=
  if v = 0 then [0] else convertBaseLoop (v + 1) v

/-- The signed machine-integer constructor `BigInt(T)`:
`signal{value < 0}, data{convertBase(std::abs(value))}`. -/
def fromInt (z : Int) : BigInt :=
  { signal := decide (z < 0), data := convertBase z.natAbs }

/-- Magnitude denoted by a limb list: `Σ limbs[i] · 2^(32·i)`. -/
def limbsVal : List Nat → Nat
  | [] => 0
  | d :: ds => d + GROUP_RADIX * limbsVal ds

/-- The integer a `BigInt` represents under the sign-magnitude reading. -/
def toInt (x : BigInt) : Int :=
  if x.signal then -(limbsVal x.data : Int) else (limbsVal x.data : Int)

/-- Claim C1.  `operator+=` is not exact: for `a = 2^32` (limbs `[0, 1]`) and
`b = -1`, the first carry loop ends with carry `0` before reaching `a`'s high
limb, the second loop therefore never borrows from it, the sign limb reads
all-ones, and the result is re-complemented into the wrong negative value
`-18446744065119617025` instead of `4294967295`. -/
theorem addAssign_not_exact_at_two_pow_32 :
    toInt (addAssign (fromInt 4294967296) (fromInt (-1))) = -18446744065119617025 ∧
    toInt (fromInt 4294967296) + toInt (fromInt (-1)) = 4294967295 ∧
    toInt (addAssign (fromInt 4294967296) (fromInt (-1))) ≠
      toInt (fromInt 4294967296) + toInt (fromInt (-1)) := by
  decide

/-- Claim C3.  `operator>>=` shifts the stored magnitude instead of the
two's-complement bit pattern: `-5 >> 1` evaluates to `-2`, while
`floor(-5 / 2) = -3`. -/
theorem rshift_not_floor_div_at_neg_five :
    toInt (rshift (fromInt (-5)) 1) = -2 ∧
    Int.fdiv (toInt (fromInt (-5))) (2 ^ 1) = -3 ∧
    toInt (rshift (fromInt (-5)) 1) ≠ Int.fdiv (toInt (fromInt (-5))) (2 ^ 1) := by
  decide

/-- Claim C4.  `longMult` sets `signal = signal != rhs.signal` without forcing
a zero magnitude non-negative: `0 * (-1)` produces sign `NEGATIVE` with limbs
`[0]`, which `operator==` distinguishes from the canonical zero. -/
theorem longMult_zero_times_neg_one_not_canonical :
    (longMult (fromInt 0) (fromInt (-1))).signal = true ∧
    (longMult (fromInt 0) (fromInt (-1))).data = [0] ∧
    eqBig (longMult (fromInt 0) (fromInt (-1))) (fromInt 0) = false := by
  decide

/-- Claim C5.  `operator<` compares magnitudes even when both operands are
negative: it reports `-3 < -5` as `true`, though numerically `-3 > -5`. -/
theorem ltBig_wrong_on_two_negatives :
    ltBig (fromInt (-3)) (fromInt (-5)) = true ∧
    ¬ toInt (fromInt (-3)) < toInt (fromInt (-5)) := by
  decide

/-- Claim C6.  With two negative operands `operator-=` computes
`|a| - |b|` with the sign of that magnitude difference, so
`(-5) - (-3)` evaluates to `+2`, while `(-5) + (-(-3))` correctly evaluates
to `-2`: subtraction does not agree with addition of the negation. -/
theorem subAssign_ne_addAssign_neg_at_neg_five_neg_three :
    toInt (subAssign (fromInt (-5)) (fromInt (-3))) = 2 ∧
    toInt (addAssign (fromInt (-5)) (negBig (fromInt (-3)))) = -2 ∧
    subAssign (fromInt (-5)) (fromInt (-3)) ≠
      addAssign (fromInt (-5)) (negBig (fromInt (-3))) := by
  decide

/-- Claim C7.  Right-shifting a one-limb value by exactly 32 bits pops every
limb (`group_shift == data.size()` fails the `>` guard), leaving the limb
deque empty — in the C++ this makes `shrink` call `back()` on an empty deque
(undefined behaviour) — and the result does not compare equal to the claimed
collapse value `0`. -/
theorem rshift_at_limb_boundary_empties_data :
    (rshift (fromInt 1) 32).data = [] ∧
    eqBig (rshift (fromInt 1) 32) (fromInt 0) = false := by
  decide

/-- Claim C8.  The shift round-trip fails at `x = 0`, `k = 32`:
`0 << 32` shrinks back to the single limb `[0]`, and the following right
shift by 32 pops that limb, so `(0 << 32) >> 32` has an empty limb deque and
does not compare equal to `0`. -/
theorem lshift_rshift_roundtrip_fails_at_zero_32 :
    (rshift (lshift (fromInt 0) 32) 32).data = [] ∧
    eqBig (rshift (lshift (fromInt 0) 32) 32) (fromInt 0) = false := by
  decide

/-- Claim C9.  `operator-()` only flips the sign flag: negating the canonical
zero yields sign `NEGATIVE` with limbs `[0]`, violating the invariant that
zero is represented with `sign = false`, and the result is not `==` to the
canonical zero. -/
theorem negBig_zero_not_canonical :
    (negBig (fromInt 0)).signal = true ∧
    (negBig (fromInt 0)).data = [0] ∧
    eqBig (negBig (fromInt 0)) (fromInt 0) = false := by
  decide

/-- The character class `\s` of `std::regex` (ECMAScript): space, tab, and the
control characters LF, VT, FF, CR (codes 32, 9, 10–13). -/
def isSpaceC (c : Char) : Bool :=
  c.toNat = 32 || c.toNat = 9 || (decide (10 ≤ c.toNat) && decide (c.toNat ≤ 13))

/-- The character class `[0-9]`. -/
def isDigitC (c : Char) : Bool := decide (48 ≤ c.toNat) && decide (c.toNat ≤ 57)

/-- The sign alternative `(\+|-)` of the source regex. -/
def isSignC (c : Char) : Bool := c == '+' || c == '-'

/-- Consume the optional sign `(\+|-)?`: if the first character is a sign,
capture it and step past it, otherwise capture nothing. -/
def signSplit : List Char → Option Char × List Char
  | c :: rest => if isSignC c then (some c, rest) else (none, c :: rest)
  | [] => (none, [])

/-- The full match of the source regex `\s*(\+|-)?\s*([0-9]+)\s*` against the
input, as a deterministic scan (the character classes are pairwise disjoint,
so greedy scanning coincides with the regex).  On success it returns
(`match[1] == "-"`, the digit characters of `match[2]`). -/
def matchNumber (l : List Char) : Option (Bool × List Char) :=
  let p := signSplit (l.dropWhile isSpaceC)
  let l3 := p.2.dropWhile isSpaceC
  let ds := l3.takeWhile isDigitC
  let l4 := (l3.dropWhile isDigitC).dropWhile isSpaceC
  if ds.isEmpty || !l4.isEmpty then none
  else some (p.1 == some '-', ds)

/-- `std::stoull` on a digit-only string. -/
def strToNat (l : List Char) : Nat := l.foldl (fun a c => a * 10 + (c.toNat - 48)) 0

/-- Chunking loop of `convertBase(const std::string&)`: split the digit string
into 9-digit chunks from the right (`substr(i, 9)`), least-significant chunk
first; a final chunk of at most 8 digits comes from `substr(0, i)`.  The fuel
equals the starting index `i` and dominates the iteration count because `i`
drops by 9 each step. -/
def chunkLoop (s : List Char) : Nat → Nat → List Nat
  | 0, _ => []
  | fuel + 1, i =>
    if i = 0 then []
    else if 8 < i then strToNat ((s.drop (i - 9)).take 9) :: chunkLoop s fuel (i - 9)
    else [strToNat (s.take i)]

/-- Inner sweep of the base-`10^9` → base-`2^32` conversion in
`convertBase(const std::string&)` (`for i = size-1 downto k+1`):
`true_value = data[i] * 10^9 + data[i-1]`, store its low 32 bits at `i-1` and
the high part at `i`. -/
def innerStr (data : List Nat) (i k : Nat) : List Nat :=
  match i with
  | 0 => data
  | i' + 1 =>
    if k < i' + 1 then
      let tv := data.getD (i' + 1) 0 * 1000000000 + data.getD i' 0
      innerStr ((data.set i' (tv % GROUP_RADIX)).set (i' + 1) ((tv / GROUP_RADIX) % GROUP_RADIX)) i' k
    else data

/-- Outer sweep (`while k < data.size()`) of
`convertBase(const std::string&)`: run the inner sweep, pop trailing zero
chunks (keeping at least one), advance `k`.  The limb count never grows here,
so the iteration count is at most the starting length, which is the fuel. -/
def kLoopStr : Nat → Nat → List Nat → List Nat
  | 0, _, data => data
  | fuel + 1, k, data =>
    if k < data.length then kLoopStr fuel (k + 1) (shrink (innerStr data (data.length - 1) k))
    else data

/-- `BigInt::convertBase(const std::string&)` on the matched digit characters. -/
def convertBaseStr (ds : List Char) : List Nat :=
  let chunks := chunkLoop ds ds.length ds.length
  kLoopStr chunks.length 0 chunks

/-- `BigInt::fromString`: reject input the regex refuses
(`std::runtime_error`, modelled as `none`); otherwise build the value from
`match[2]`, take the sign from `match[1]`, and `shrink`. -/
def fromString (s : String) : Option BigInt :=
  (matchNumber s.data).map fun p => { signal := p.1, data := shrink (convertBaseStr p.2) }

/-- Inner sweep of `BigInt::toDecimal` (`for i = size-1 downto k+1`):
`true_value = dec[i] * 2^32 + dec[i-1]`, store `true_value % 10^9` at `i-1`;
if the quotient exceeds `2^32`, spill `q / 2^32` into limb `i+1` (or append
it when `i` is the current top), keep `q % 2^32` at `i`.  (The C++ computes
`dec_data[i] * GROUP_RADIX` in a signed 64-bit type, which can overflow for
limbs `≥ 2^31`; the model uses the exact product, which is the wrapped
value's reinterpretation as `uint64_t`.) -/
def innerDec (dec : List Nat) (i k : Nat) : List Nat :=
  match i with
  | 0 => dec
  | i' + 1 =>
    if k < i' + 1 then
      let tv := dec.getD (i' + 1) 0 * GROUP_RADIX + dec.getD i' 0
      let dec := dec.set i' (tv % 1000000000)
      let q := tv / 1000000000
      let p :=
        if GROUP_RADIX < q then
          (if i' + 1 < dec.length - 1
           then dec.set (i' + 2) ((dec.getD (i' + 2) 0 + q / GROUP_RADIX) % GROUP_RADIX)
           else dec ++ [(q / GROUP_RADIX) % GROUP_RADIX],
           q % GROUP_RADIX)
        else (dec, q)
      innerDec (p.1.set (i' + 1) (p.2 % GROUP_RADIX)) i' k
    else dec

/-- Outer sweep (`while k < dec_data.size()`) of `BigInt::toDecimal`.  Each
outer iteration can append at most one limb, so the C++ termination is
data-dependent; the loop is modelled with fuel and `none` for exhaustion. -/
def toDecLoop : Nat → Nat → List Nat → Option (List Nat)
  | 0, k, dec => if k < dec.length then none else some dec
  | fuel + 1, k, dec =>
    if k < dec.length then toDecLoop fuel (k + 1) (innerDec dec (dec.length - 1) k)
    else some dec

/-- `BigInt::toDecimal`: the outer sweep (fuel `2·n + 2` dominates the
iterations the C++ loop makes on an `n`-limb magnitude, whose decimal form
has fewer than `2n` nine-digit chunks), then the final fix-up splitting a top
chunk above `10^9`. -/
def toDecimal (x : BigInt) : Option (List Nat) :=
  (toDecLoop (2 * x.data.length + 2) 0 x.data).map fun dec =>
    let b := dec.getLastD 0
    if 1000000000 < b then (dec.set (dec.length - 1) (b % 1000000000)) ++ [b / 1000000000]
    else dec

/-- The zero-padding of `operator<<(std::ostream&, const BigInt&)`: pad a
rendered chunk to 9 characters with leading `'0'`s. -/
def pad9 (s : String) : String := ⟨List.replicate (9 - s.length) '0' ++ s.data⟩

/-- The digit emission of `operator<<`: the most-significant base-`10^9`
chunk unpadded, every lower chunk zero-padded to 9 characters. -/
def renderChunks (dec : List Nat) : String :=
  match dec.reverse with
  | [] => ""
  | top :: rest => Nat.repr top ++ String.join (rest.map fun c => pad9 (Nat.repr c))

/-- `operator<<(std::ostream&, const BigInt&)`: a leading `"-"` whenever
`signal == NEGATIVE`, then the decimal chunks (`none` only if the modelled
`toDecimal` fuel runs out). -/
def printBig (x : BigInt) : Option String :=
  (toDecimal x).map fun dec => (if x.signal then "-" else "") ++ renderChunks dec

/-- Claim C2.  The round trip is not canonical on `"-0"`: `fromString` keeps
`signal = NEGATIVE` for a zero magnitude and `operator<<` prints the sign
unconditionally, so `"-0"` renders as `"-0"`, not as the claimed `"0"`. -/
theorem roundtrip_renders_minus_zero :
    Option.bind (fromString "-0") printBig = some "-0" ∧ "-0" ≠ "0" := by
  decide

/-! Character-class facts and `takeWhile`/`dropWhile` bookkeeping used to
relate the scanning matcher to the declarative input grammars. -/

theorem isSignC_eq {c : Char} (h : isSignC c = true) : c = '+' ∨ c = '-' := by
  simp only [isSignC, Bool.or_eq_true, beq_iff_eq] at h
  exact h

theorem sign_not_space {c : Char} (h : isSignC c = true) : isSpaceC c = false := by
  rcases isSignC_eq h with rfl | rfl <;> decide

theorem digit_not_space {c : Char} (h : isDigitC c = true) : isSpaceC c = false := by
  simp only [isDigitC, Bool.and_eq_true, decide_eq_true_eq] at h
  rcases hb : isSpaceC c with _ | _
  · rfl
  · exfalso
    simp only [isSpaceC, Bool.or_eq_true, Bool.and_eq_true, decide_eq_true_eq] at hb
    omega

theorem space_not_digit {c : Char} (h : isSpaceC c = true) : isDigitC c = false := by
  simp only [isSpaceC, Bool.or_eq_true, Bool.and_eq_true, decide_eq_true_eq] at h
  rcases hb : isDigitC c with _ | _
  · rfl
  · exfalso
    simp only [isDigitC, Bool.and_eq_true, decide_eq_true_eq] at hb
    omega

theorem digit_not_sign {c : Char} (h : isDigitC c = true) : isSignC c = false := by
  rcases hb : isSignC c with _ | _
  · rfl
  · rcases isSignC_eq hb with rfl | rfl <;> exact absurd h (by decide)

theorem dropWhile_append_all {p : Char → Bool} {w l : List Char}
    (h : ∀ c ∈ w, p c = true) : (w ++ l).dropWhile p = l.dropWhile p := by
  induction w with
  | nil => rfl
  | cons a as ih =>
    have ha := h a (List.mem_cons_self a as)
    rw [List.cons_append, List.dropWhile_cons, if_pos ha]
    exact ih fun c hc => h c (List.mem_cons_of_mem a hc)

theorem takeWhile_append_all {p : Char → Bool} {w l : List Char}
    (h : ∀ c ∈ w, p c = true) : (w ++ l).takeWhile p = w ++ l.takeWhile p := by
  induction w with
  | nil => rfl
  | cons a as ih =>
    have ha := h a (List.mem_cons_self a as)
    rw [List.cons_append, List.takeWhile_cons, if_pos ha, List.cons_append,
      ih fun c hc => h c (List.mem_cons_of_mem a hc)]

theorem dropWhile_cons_self {p : Char → Bool} {c : Char} {l : List Char}
    (h : p c = false) : (c :: l).dropWhile p = c :: l := by
  rw [List.dropWhile_cons, if_neg]
  simp [h]

theorem takeWhile_nil_of_all_neg {p : Char → Bool} {l : List Char}
    (h : ∀ c ∈ l, p c = false) : l.takeWhile p = [] := by
  cases l with
  | nil => rfl
  | cons a as =>
    rw [List.takeWhile_cons, if_neg]
    simp [h a (List.mem_cons_self a as)]

theorem dropWhile_nil_of_all {p : Char → Bool} {l : List Char}
    (h : ∀ c ∈ l, p c = true) : l.dropWhile p = [] := by
  induction l with
  | nil => rfl
  | cons a as ih =>
    rw [List.dropWhile_cons, if_pos (h a (List.mem_cons_self a as))]
    exact ih fun c hc => h c (List.mem_cons_of_mem a hc)

theorem all_of_dropWhile_nil {p : Char → Bool} {l : List Char}
    (h : l.dropWhile p = []) : ∀ c ∈ l, p c = true := by
  induction l with
  | nil => intro c hc; cases hc
  | cons a as ih =>
    intro c hc
    rw [List.dropWhile_cons] at h
    rcases hp : p a with _ | _
    · rw [if_neg (by simp [hp])] at h
      cases h
    · rw [if_pos hp] at h
      rcases List.mem_cons.mp hc with rfl | hc2
      · exact hp
      · exact ih h c hc2

theorem all_takeWhile {p : Char → Bool} {l : List Char} :
    ∀ c ∈ l.takeWhile p, p c = true := by
  induction l with
  | nil => intro c hc; cases hc
  | cons a as ih =>
    intro c hc
    rw [List.takeWhile_cons] at hc
    rcases hp : p a with _ | _
    · rw [if_neg (by simp [hp])] at hc
      cases hc
    · rw [if_pos hp] at hc
      rcases List.mem_cons.mp hc with rfl | hc2
      · exact hp
      · exact ih c hc2

theorem not_of_dropWhile_cons {p : Char → Bool} {l : List Char} {c : Char}
    {rest : List Char} (h : l.dropWhile p = c :: rest) : p c = false := by
  induction l with
  | nil => cases h
  | cons a as ih =>
    rw [List.dropWhile_cons] at h
    rcases hp : p a with _ | _
    · rw [if_neg (by simp [hp])] at h
      injection h with h1 h2
      rw [← h1]
      exact hp
    · rw [if_pos hp] at h
      exact ih h

/-- The digit-and-trailing-whitespace tail: `takeWhile [0-9]` recovers exactly
the digit block. -/
theorem takeWhile_digits_tail {d : Char} {ds' w3 : List Char}
    (hds : ∀ c ∈ d :: ds', isDigitC c = true)
    (hw3 : ∀ c ∈ w3, isSpaceC c = true) :
    (d :: (ds' ++ w3)).takeWhile isDigitC = d :: ds' := by
  rw [← List.cons_append, takeWhile_append_all hds,
    takeWhile_nil_of_all_neg fun c hc => space_not_digit (hw3 c hc), List.append_nil]

/-- The digit-and-trailing-whitespace tail: after dropping the digit block,
only whitespace remains. -/
theorem dropWhile_digits_tail {d : Char} {ds' w3 : List Char}
    (hds : ∀ c ∈ d :: ds', isDigitC c = true)
    (hw3 : ∀ c ∈ w3, isSpaceC c = true) :
    ((d :: (ds' ++ w3)).dropWhile isDigitC).dropWhile isSpaceC = [] := by
  rw [← List.cons_append, dropWhile_append_all hds]
  cases w3 with
  | nil => rfl
  | cons a as =>
    rw [dropWhile_cons_self (space_not_digit (hw3 a (List.mem_cons_self a as)))]
    exact dropWhile_nil_of_all hw3

/-- The input grammar exactly as claim C10 words it: optional whitespace,
optional `'+'` or `'-'`, one or more decimal digits, optional whitespace —
with no whitespace between the sign and the digits. -/
def ClaimGrammar (l : List Char) : Prop :=
  ∃ w1 sg ds w3 : List Char,
    l = w1 ++ sg ++ ds ++ w3 ∧
    (∀ c ∈ w1, isSpaceC c = true) ∧
    (sg = [] ∨ sg = ['+'] ∨ sg = ['-']) ∧
    ds ≠ [] ∧ (∀ c ∈ ds, isDigitC c = true) ∧
    (∀ c ∈ w3, isSpaceC c = true)

/-- The grammar of the regex actually in the source,
`\s*(\+|-)?\s*([0-9]+)\s*` (the same pattern spec §6 writes): optional
whitespace is also allowed between the sign and the digits. -/
def SourceGrammar (l : List Char) : Prop :=
  ∃ w1 sg w2 ds w3 : List Char,
    l = w1 ++ sg ++ w2 ++ ds ++ w3 ∧
    (∀ c ∈ w1, isSpaceC c = true) ∧
    (sg = [] ∨ sg = ['+'] ∨ sg = ['-']) ∧
    (∀ c ∈ w2, isSpaceC c = true) ∧
    ds ≠ [] ∧ (∀ c ∈ ds, isDigitC c = true) ∧
    (∀ c ∈ w3, isSpaceC c = true)

/-- Completeness of the matcher: every string of the source grammar is
accepted by `matchNumber`. -/
theorem matchNumber_isSome_of_grammar {l : List Char} (h : SourceGrammar l) :
    (matchNumber l).isSome = true := by
  obtain ⟨w1, sg, w2, ds, w3, rfl, hw1, hsg, hw2, hds0, hds, hw3⟩ := h
  obtain ⟨d, ds', rfl⟩ : ∃ d ds', ds = d :: ds' := by
    cases ds with
    | nil => exact absurd rfl hds0
    | cons a as => exact ⟨a, as, rfl⟩
  have hd : isDigitC d = true := hds d (List.mem_cons_self d ds')
  have htake := takeWhile_digits_tail hds hw3
  have hdrop := dropWhile_digits_tail hds hw3
  have edrop : List.dropWhile isSpaceC (d :: (ds' ++ w3)) = d :: (ds' ++ w3) :=
    dropWhile_cons_self (digit_not_space hd)
  have e2 : List.dropWhile isSpaceC (w2 ++ (d :: (ds' ++ w3))) = d :: (ds' ++ w3) := by
    rw [dropWhile_append_all hw2, dropWhile_cons_self (digit_not_space hd)]
  rcases hsg with rfl | rfl | rfl
  · simp only [List.append_assoc, List.nil_append, List.cons_append]
    have e1 : List.dropWhile isSpaceC (w1 ++ (w2 ++ (d :: (ds' ++ w3)))) =
        d :: (ds' ++ w3) := by
      rw [dropWhile_append_all hw1, dropWhile_append_all hw2,
        dropWhile_cons_self (digit_not_space hd)]
    simp only [matchNumber, e1, signSplit, digit_not_sign hd]
    simp [edrop, htake, hdrop]
  · have hplus : isSignC '+' = true := by decide
    simp only [List.append_assoc, List.nil_append, List.cons_append]
    have e1 : List.dropWhile isSpaceC (w1 ++ ('+' :: (w2 ++ (d :: (ds' ++ w3))))) =
        '+' :: (w2 ++ (d :: (ds' ++ w3))) := by
      rw [dropWhile_append_all hw1, dropWhile_cons_self (sign_not_space hplus)]
    simp only [matchNumber, e1, signSplit, hplus]
    simp [e2, htake, hdrop]
  · have hminus : isSignC '-' = true := by decide
    simp only [List.append_assoc, List.nil_append, List.cons_append]
    have e1 : List.dropWhile isSpaceC (w1 ++ ('-' :: (w2 ++ (d :: (ds' ++ w3))))) =
        '-' :: (w2 ++ (d :: (ds' ++ w3))) := by
      rw [dropWhile_append_all hw1, dropWhile_cons_self (sign_not_space hminus)]
    simp only [matchNumber, e1, signSplit, hminus]
    simp [e2, htake, hdrop]

/-- Soundness of the matcher: every string `matchNumber` accepts belongs to
the source grammar. -/
theorem grammar_of_matchNumber {l : List Char} (h : (matchNumber l).isSome = true) :
    SourceGrammar l := by
  have hsplit := @List.takeWhile_append_dropWhile _ isSpaceC l
  simp only [matchNumber] at h
  cases hl1 : l.dropWhile isSpaceC with
  | nil =>
    exfalso
    rw [hl1] at h
    simp [signSplit] at h
  | cons c rest =>
    rw [hl1] at h
    have hw1 : ∀ x ∈ l.takeWhile isSpaceC, isSpaceC x = true := all_takeWhile
    have hcs : isSpaceC c = false := not_of_dropWhile_cons hl1
    simp only [signSplit] at h
    rcases hsgn : isSignC c with _ | _
    · rw [if_neg (show ¬ isSignC c = true by simp [hsgn])] at h
      dsimp only at h
      rw [dropWhile_cons_self hcs] at h
      rcases hds : (c :: rest).takeWhile isDigitC with _ | ⟨d, ds'⟩
      · rw [hds] at h
        simp at h
      · rw [hds] at h
        have hl4 : ((c :: rest).dropWhile isDigitC).dropWhile isSpaceC = [] := by
          rcases he : ((c :: rest).dropWhile isDigitC).dropWhile isSpaceC with _ | ⟨a, as⟩
          · rfl
          · rw [he] at h
            simp at h
        have h3 : (c :: rest).dropWhile isDigitC =
            ((c :: rest).dropWhile isDigitC).takeWhile isSpaceC := by
          conv_lhs => rw [← @List.takeWhile_append_dropWhile _ isSpaceC
            ((c :: rest).dropWhile isDigitC)]
          rw [hl4, List.append_nil]
        have h4 : (d :: ds') ++ ((c :: rest).dropWhile isDigitC).takeWhile isSpaceC =
            c :: rest := by
          rw [← h3, ← hds]
          exact @List.takeWhile_append_dropWhile _ isDigitC (c :: rest)
        refine ⟨l.takeWhile isSpaceC, [], [], d :: ds',
          ((c :: rest).dropWhile isDigitC).takeWhile isSpaceC, ?_, hw1,
          Or.inl rfl, ?_, by simp, ?_, ?_⟩
        · rw [List.append_assoc, List.append_assoc, List.append_assoc,
            List.nil_append, List.nil_append, h4, ← hl1]
          exact hsplit.symm
        · intro x hx
          exact absurd hx (List.not_mem_nil x)
        · rw [← hds]
          exact all_takeWhile
        · exact all_takeWhile
    · rw [if_pos hsgn] at h
      dsimp only at h
      rcases hds : (rest.dropWhile isSpaceC).takeWhile isDigitC with _ | ⟨d, ds'⟩
      · rw [hds] at h
        simp at h
      · rw [hds] at h
        have hl4 : ((rest.dropWhile isSpaceC).dropWhile isDigitC).dropWhile isSpaceC = [] := by
          rcases he : ((rest.dropWhile isSpaceC).dropWhile isDigitC).dropWhile isSpaceC
            with _ | ⟨a, as⟩
          · rfl
          · rw [he] at h
            simp at h
        have h3 : (rest.dropWhile isSpaceC).dropWhile isDigitC =
            ((rest.dropWhile isSpaceC).dropWhile isDigitC).takeWhile isSpaceC := by
          conv_lhs => rw [← @List.takeWhile_append_dropWhile _ isSpaceC
            ((rest.dropWhile isSpaceC).dropWhile isDigitC)]
          rw [hl4, List.append_nil]
        have h4 : (d :: ds') ++
            ((rest.dropWhile isSpaceC).dropWhile isDigitC).takeWhile isSpaceC =
            rest.dropWhile isSpaceC := by
          rw [← h3, ← hds]
          exact @List.takeWhile_append_dropWhile _ isDigitC (rest.dropWhile isSpaceC)
        refine ⟨l.takeWhile isSpaceC, [c], rest.takeWhile isSpaceC, d :: ds',
          ((rest.dropWhile isSpaceC).dropWhile isDigitC).takeWhile isSpaceC, ?_, hw1,
          ?_, all_takeWhile, by simp, ?_, ?_⟩
        · rw [List.append_assoc, List.append_assoc, List.append_assoc, h4,
            List.takeWhile_append_dropWhile, List.singleton_append, ← hl1]
          exact hsplit.symm
        · rcases isSignC_eq hsgn with rfl | rfl
          · exact Or.inr (Or.inl rfl)
          · exact Or.inr (Or.inr rfl)
        · rw [← hds]
          exact all_takeWhile
        · exact all_takeWhile

/-- The scan matching the pattern exactly as claim C10 words it (no
whitespace permitted between the sign and the digits). -/
def matchNumberClaim (l : List Char) : Bool :=
  let p := signSplit (l.dropWhile isSpaceC)
  let ds := p.2.takeWhile isDigitC
  let l4 := (p.2.dropWhile isDigitC).dropWhile isSpaceC
  !ds.isEmpty && l4.isEmpty

/-- Every string of the claim's written grammar is accepted by the claim's
scan. -/
theorem matchNumberClaim_of_claimGrammar {l : List Char} (h : ClaimGrammar l) :
    matchNumberClaim l = true := by
  obtain ⟨w1, sg, ds, w3, rfl, hw1, hsg, hds0, hds, hw3⟩ := h
  obtain ⟨d, ds', rfl⟩ : ∃ d ds', ds = d :: ds' := by
    cases ds with
    | nil => exact absurd rfl hds0
    | cons a as => exact ⟨a, as, rfl⟩
  have hd : isDigitC d = true := hds d (List.mem_cons_self d ds')
  have htake := takeWhile_digits_tail hds hw3
  have hdrop := dropWhile_digits_tail hds hw3
  rcases hsg with rfl | rfl | rfl
  · simp only [List.append_assoc, List.nil_append, List.cons_append]
    have e1 : List.dropWhile isSpaceC (w1 ++ (d :: (ds' ++ w3))) = d :: (ds' ++ w3) := by
      rw [dropWhile_append_all hw1, dropWhile_cons_self (digit_not_space hd)]
    simp only [matchNumberClaim, e1, signSplit, digit_not_sign hd]
    simp [htake, hdrop]
  · have hplus : isSignC '+' = true := by decide
    simp only [List.append_assoc, List.nil_append, List.cons_append]
    have e1 : List.dropWhile isSpaceC (w1 ++ ('+' :: (d :: (ds' ++ w3)))) =
        '+' :: (d :: (ds' ++ w3)) := by
      rw [dropWhile_append_all hw1, dropWhile_cons_self (sign_not_space hplus)]
    simp only [matchNumberClaim, e1, signSplit, hplus]
    simp [htake, hdrop]
  · have hminus : isSignC '-' = true := by decide
    simp only [List.append_assoc, List.nil_append, List.cons_append]
    have e1 : List.dropWhile isSpaceC (w1 ++ ('-' :: (d :: (ds' ++ w3)))) =
        '-' :: (d :: (ds' ++ w3)) := by
      rw [dropWhile_append_all hw1, dropWhile_cons_self (sign_not_space hminus)]
    simp only [matchNumberClaim, e1, signSplit, hminus]
    simp [htake, hdrop]

/-- Claim C10, counterexample.  On the input `"- 1"` — whitespace between the
sign and the digits — `fromString` succeeds, although the string does not
match the pattern the claim states (so the claimed "fails exactly when" is
false as stated). -/
theorem fromString_grammar_counterexample :
    (fromString "- 1").isSome = true ∧ ¬ ClaimGrammar (String.data "- 1") := by
  refine ⟨by decide, fun h => ?_⟩
  have := matchNumberClaim_of_claimGrammar h
  exact absurd this (by decide)

/-- Claim C10 (amended): `fromString` raises the format error exactly when
the input does not match `\s*(\+|-)?\s*([0-9]+)\s*` — optional whitespace,
optional sign, optional whitespace, one or more digits, optional whitespace —
and on failure no value is produced (`none`).  String construction remains
the only operation of the core that can fail: every other embedded operation
(`addAssign`, `subAssign`, `negBig`, `longMult`, `lshift`, `rshift`,
`eqBig`, `ltBig`, `fromInt`) is a total function, `fromString` alone returns
an `Option`, and it is `none` precisely on the grammar mismatch below. -/
theorem fromString_none_iff_not_grammar (s : String) :
    fromString s = none ↔ ¬ SourceGrammar s.data := by
  constructor
  · intro h hg
    have hs := matchNumber_isSome_of_grammar hg
    rw [fromString, Option.map_eq_none'] at h
    rw [h] at hs
    cases hs
  · intro h
    rcases hm : matchNumber s.data with _ | p
    · rw [fromString, hm]
      rfl
    · exact absurd (grammar_of_matchNumber (by rw [hm]; rfl)) h

end BigIntSpec
